import Mathlib

/-!
Verification of the offmute-server media pipeline against its specification.

The definitions below are shallow embeddings of the TypeScript source:
pure computations become Lean functions, sequential stateful loops become
explicit folds or recursions, and the external generation service is a
parameter (a function from call index to outcome).  JavaScript numbers are
modelled as rationals (exact arithmetic); JavaScript strings as Lean
strings, with the JS string operations (trim, split, startsWith, replace,
slice, join) re-implemented structurally so that they evaluate inside the
kernel.  File-system writes are treated as infallible bookkeeping and are
not part of the state.
-/

namespace Offmute

/-! ## Media decomposition (`processAudioFile`, utils/audio-chunk.ts)

The source computes, for a probed `duration` (seconds) and options
`chunkMinutes` / `overlapMinutes`:

  chunkDuration   = chunkMinutes * 60
  overlapDuration = overlapMinutes * 60
  totalChunks     = Math.ceil(duration / (chunkDuration - overlapDuration))
  chunk i         = [ i*(chunkDuration-overlapDuration),
                      min(start + chunkDuration, duration) ]

There is no duration validation in the source: a zero duration yields
`totalChunks = 0` and an empty chunk list, and the function returns
normally (no `InvalidMediaError` exists anywhere in the repository). -/

/-- Stride between consecutive chunk start times, in seconds
(`chunkDuration - overlapDuration` in the source). -/
def chunkStride (chunkMinutes overlapMinutes : ℚ) : ℚ :=
  chunkMinutes * 60 - overlapMinutes * 60

/-- Number of chunks: `Math.ceil(duration / (chunkDuration - overlapDuration))`.
`Math.ceil` of the nonnegative quotient is its integer ceiling; `toNat`
reflects its use as a loop bound. -/
def totalChunks (duration chunkMinutes overlapMinutes : ℚ) : ℕ :=
  (Int.ceil (duration / chunkStride chunkMinutes overlapMinutes)).toNat

/-- Start offset of chunk `i`: `i * (chunkDuration - overlapDuration)`. -/
def chunkStartTime (chunkMinutes overlapMinutes : ℚ) (i : ℕ) : ℚ :=
  i * chunkStride chunkMinutes overlapMinutes

/-- End offset of chunk `i`: `Math.min(startTime + chunkDuration, duration)`. -/
def chunkEndTime (duration chunkMinutes overlapMinutes : ℚ) (i : ℕ) : ℚ :=
  min (chunkStartTime chunkMinutes overlapMinutes i + chunkMinutes * 60) duration

/-- The list of `(startTime, endTime)` spans produced by `processAudioFile`'s
chunk loop, in index order. -/
def processAudioFileChunks (duration chunkMinutes overlapMinutes : ℚ) : List (ℚ × ℚ) :=
  (List.range (totalChunks duration chunkMinutes overlapMinutes)).map
    (fun i => (chunkStartTime chunkMinutes overlapMinutes i,
               chunkEndTime duration chunkMinutes overlapMinutes i))

theorem totalChunks_pos (D s o : ℚ) (hD : 0 < D) (ho : 0 < o) (hso : o < s) :
    0 < totalChunks D s o := by
  have hst : 0 < chunkStride s o := by
    unfold chunkStride; linarith
  have hq : 0 < D / chunkStride s o := div_pos hD hst
  have h1 : (0:ℤ) < Int.ceil (D / chunkStride s o) := Int.ceil_pos.mpr hq
  unfold totalChunks
  omega

theorem chunkStart_lt_duration (D s o : ℚ) (hD : 0 < D) (ho : 0 < o) (hso : o < s)
    (i : ℕ) (hi : i < totalChunks D s o) :
    chunkStartTime s o i < D := by
  have hst : 0 < chunkStride s o := by
    unfold chunkStride; linarith
  have hN : (0:ℤ) ≤ Int.ceil (D / chunkStride s o) :=
    (Int.ceil_pos.mpr (div_pos hD hst)).le
  have hcast : ((totalChunks D s o : ℕ) : ℤ) = Int.ceil (D / chunkStride s o) := by
    unfold totalChunks
    omega
  have hiz : ((i:ℤ) + 1) ≤ Int.ceil (D / chunkStride s o) := by
    omega
  have hlt : ((i:ℤ) : ℚ) < D / chunkStride s o := by
    have := Int.lt_ceil.mp (show (i:ℤ) < Int.ceil (D / chunkStride s o) by omega)
    exact_mod_cast this
  have := (lt_div_iff hst).mp hlt
  unfold chunkStartTime
  exact_mod_cast this

theorem processAudioFileChunks_get (D s o : ℚ) (i : ℕ)
    (hi : i < totalChunks D s o) :
    (processAudioFileChunks D s o).get? i =
      some (chunkStartTime s o i, chunkEndTime D s o i) := by
  unfold processAudioFileChunks
  rw [List.get?_map, List.get?_range hi]
  rfl

/-- C1 counterexample.  With probed duration 550 s, `chunkMinutes = 10`,
`overlapMinutes = 1` the loop produces the two spans `[0,550]` and
`[540,550]`: the adjacent pair overlaps by 10 s, not the claimed exact
`o` minutes (60 s), and the non-final chunk `[0,550]` is itself shorter
than a full 600 s chunk. -/
theorem audio_chunk_overlap_counterexample :
    processAudioFileChunks 550 10 1 = [(0, 550), (540, 550)] ∧
    ¬ (chunkEndTime 550 10 1 0 - chunkStartTime 10 1 1 = 1 * 60) ∧
    ¬ (chunkEndTime 550 10 1 0 - chunkStartTime 10 1 0 = 10 * 60) := by
  have hst : chunkStride 10 1 = (540:ℚ) := by unfold chunkStride; norm_num
  have hc : totalChunks 550 10 1 = 2 := by
    unfold totalChunks
    rw [hst]
    rw [show ⌈(550:ℚ)/540⌉ = 2 from by rw [Int.ceil_eq_iff]; norm_num]
    rfl
  refine ⟨?_, ?_, ?_⟩
  · unfold processAudioFileChunks
    rw [hc]
    unfold chunkStartTime chunkEndTime chunkStartTime
    rw [hst]
    norm_num [List.range_succ, min_def]
  · unfold chunkEndTime chunkStartTime
    rw [hst]
    norm_num [min_def]
  · unfold chunkEndTime chunkStartTime
    rw [hst]
    norm_num [min_def]

/-- C1 (amended).  For duration `D > 0` and minutes `s > o > 0`,
`processAudioFile` produces `ceil(D / ((s-o)*60))` chunks; chunk `i` spans
`[i*(s-o)*60, min(i*(s-o)*60 + s*60, D)]`; the chunks cover `[0, D)` with
no gap; and each adjacent pair overlaps by a positive amount that equals
exactly `o` minutes whenever the earlier chunk of the pair is not
truncated by the end of the file (`i*(s-o)*60 + s*60 ≤ D`) and is at most
`o` minutes otherwise. -/
theorem processAudioFile_segmentation (D s o : ℚ)
    (hD : 0 < D) (ho : 0 < o) (hso : o < s) :
    (processAudioFileChunks D s o).length = totalChunks D s o ∧
    (∀ i, i < totalChunks D s o →
      (processAudioFileChunks D s o).get? i =
        some (i * (s * 60 - o * 60), min (i * (s * 60 - o * 60) + s * 60) D)) ∧
    (∀ x : ℚ, 0 ≤ x → x < D → ∃ i, i < totalChunks D s o ∧
      chunkStartTime s o i ≤ x ∧ x < chunkEndTime D s o i) ∧
    (∀ i, i + 1 < totalChunks D s o →
      (chunkStartTime s o i + s * 60 ≤ D →
        chunkEndTime D s o i - chunkStartTime s o (i + 1) = o * 60) ∧
      0 < chunkEndTime D s o i - chunkStartTime s o (i + 1) ∧
      chunkEndTime D s o i - chunkStartTime s o (i + 1) ≤ o * 60) := by
  have hst : 0 < chunkStride s o := by
    unfold chunkStride; linarith
  have hstlt : chunkStride s o < s * 60 := by
    unfold chunkStride; linarith
  have hNceil : ((totalChunks D s o : ℕ) : ℤ) = Int.ceil (D / chunkStride s o) := by
    have : (0:ℤ) < Int.ceil (D / chunkStride s o) :=
      Int.ceil_pos.mpr (div_pos hD hst)
    unfold totalChunks
    omega
  refine ⟨?_, ?_, ?_, ?_⟩
  · unfold processAudioFileChunks
    simp
  · intro i hi
    rw [processAudioFileChunks_get D s o i hi]
    unfold chunkStartTime chunkEndTime chunkStartTime chunkStride
    rfl
  · intro x hx hxD
    refine ⟨(Int.floor (x / chunkStride s o)).toNat, ?_, ?_, ?_⟩
    · have h1 : (0:ℤ) ≤ Int.floor (x / chunkStride s o) :=
        Int.floor_nonneg.mpr (div_nonneg hx hst.le)
      have hlt : Int.floor (x / chunkStride s o) < Int.ceil (D / chunkStride s o) := by
        have ha : ((Int.floor (x / chunkStride s o) : ℤ) : ℚ) ≤ x / chunkStride s o :=
          Int.floor_le _
        have hb : x / chunkStride s o < D / chunkStride s o := by
          apply div_lt_div_of_pos_right hxD hst
        have hcc : D / chunkStride s o ≤ ((Int.ceil (D / chunkStride s o) : ℤ) : ℚ) :=
          Int.le_ceil _
        exact_mod_cast lt_of_le_of_lt ha (lt_of_lt_of_le hb hcc)
      omega
    · have h1 : (0:ℤ) ≤ Int.floor (x / chunkStride s o) :=
        Int.floor_nonneg.mpr (div_nonneg hx hst.le)
      have h2 : (((Int.floor (x / chunkStride s o)).toNat : ℕ) : ℚ) =
          ((Int.floor (x / chunkStride s o) : ℤ) : ℚ) := by
        exact_mod_cast congrArg (Int.cast : ℤ → ℚ) (Int.toNat_of_nonneg h1)
      unfold chunkStartTime
      rw [h2]
      have h3 : ((Int.floor (x / chunkStride s o) : ℤ) : ℚ) ≤ x / chunkStride s o :=
        Int.floor_le _
      calc ((Int.floor (x / chunkStride s o) : ℤ) : ℚ) * chunkStride s o
          ≤ (x / chunkStride s o) * chunkStride s o :=
            mul_le_mul_of_nonneg_right h3 hst.le
        _ = x := div_mul_cancel₀ x hst.ne'
    · have h1 : (0:ℤ) ≤ Int.floor (x / chunkStride s o) :=
        Int.floor_nonneg.mpr (div_nonneg hx hst.le)
      have h2 : (((Int.floor (x / chunkStride s o)).toNat : ℕ) : ℚ) =
          ((Int.floor (x / chunkStride s o) : ℤ) : ℚ) := by
        exact_mod_cast congrArg (Int.cast : ℤ → ℚ) (Int.toNat_of_nonneg h1)
      unfold chunkEndTime chunkStartTime
      rw [h2]
      have h3 : x / chunkStride s o < ((Int.floor (x / chunkStride s o) : ℤ) : ℚ) + 1 :=
        Int.lt_floor_add_one _
      have h4 : x < (((Int.floor (x / chunkStride s o) : ℤ) : ℚ) + 1) * chunkStride s o := by
        have := (div_lt_iff hst).mp h3
        linarith
      rw [lt_min_iff]
      constructor
      · nlinarith
      · exact hxD
  · intro i hi
    have hip1 : ((i:ℚ) + 1) * chunkStride s o < D := by
      have h1 : (0:ℤ) < Int.ceil (D / chunkStride s o) :=
        Int.ceil_pos.mpr (div_pos hD hst)
      have h2 : ((i:ℤ) + 1) < Int.ceil (D / chunkStride s o) := by omega
      have h3 : (((i:ℤ) + 1) : ℚ) < D / chunkStride s o := by
        have := Int.lt_ceil.mp h2
        exact_mod_cast this
      have := (lt_div_iff hst).mp h3
      push_cast at this ⊢
      linarith
  
    refine ⟨?_, ?_, ?_⟩
    · intro hnotrunc
      unfold chunkEndTime chunkStartTime at *
      rw [min_eq_left hnotrunc]
      push_cast
      unfold chunkStride
      ring
    · unfold chunkEndTime chunkStartTime
      rw [lt_sub_iff_add_lt, zero_add, lt_min_iff]
      constructor
      · push_cast
        nlinarith
      · push_cast at hip1 ⊢
        linarith
    · unfold chunkEndTime chunkStartTime
      have hmin : min ((i:ℚ) * chunkStride s o + s * 60) D ≤ (i:ℚ) * chunkStride s o + s * 60 :=
        min_le_left _ _
      push_cast
      unfold chunkStride at *
      linarith

/-- Witness for `processAudioFile_segmentation`: the 25-minute scenario
(`D = 1500` s, `s = 10`, `o = 1`).  The spans are `[0,600]`, `[540,1140]`,
`[1080,1500]` (minutes `[0,10]`, `[9,19]`, `[18,25]`), and the first
adjacent pair overlaps by exactly 60 s, obtained by applying the theorem. -/
theorem processAudioFile_segmentation_witness :
    processAudioFileChunks 1500 10 1 = [(0, 600), (540, 1140), (1080, 1500)] ∧
    chunkEndTime 1500 10 1 0 - chunkStartTime 10 1 1 = 1 * 60 := by
  constructor
  · have hst : chunkStride 10 1 = (540:ℚ) := by unfold chunkStride; norm_num
    have hc : totalChunks 1500 10 1 = 3 := by
      unfold totalChunks
      rw [hst]
      rw [show ⌈(1500:ℚ)/540⌉ = 3 from by rw [Int.ceil_eq_iff]; norm_num]
      rfl
    unfold processAudioFileChunks
    rw [hc]
    unfold chunkStartTime chunkEndTime chunkStartTime
    rw [hst]
    norm_num [List.range_succ, min_def]
  · have h := (processAudioFile_segmentation 1500 10 1 (by norm_num) (by norm_num)
      (by norm_num)).2.2.2 0 (by
        have hst : chunkStride 10 1 = (540:ℚ) := by unfold chunkStride; norm_num
        unfold totalChunks
        rw [hst]
        rw [show ⌈(1500:ℚ)/540⌉ = 3 from by rw [Int.ceil_eq_iff]; norm_num]
        norm_num)
    refine h.1 ?_
    unfold chunkStartTime chunkStride
    norm_num

/-- C8 counterexample.  At probed duration `0` the source computes
`totalChunks = ceil(0 / 540) = 0` and the chunk loop body never runs, so
`processAudioFile` returns normally with an empty chunk list: a zero-chunk
decomposition is produced silently, with no error of any kind (the
repository contains no `InvalidMediaError` and no duration check). -/
theorem zero_duration_silent_counterexample :
    totalChunks 0 10 1 = 0 ∧ processAudioFileChunks 0 10 1 = [] := by
  have hc : totalChunks 0 10 1 = 0 := by
    unfold totalChunks
    rw [zero_div]
    simp
  exact ⟨hc, by unfold processAudioFileChunks; rw [hc]; rfl⟩

/-- C8 (amended).  For every chunk/overlap configuration `s > o > 0`, a
zero probed duration makes `processAudioFile` proceed silently and return
a decomposition with zero chunks; no `InvalidMediaError` is raised (the
embedding, translated from the whole function, has no failure path). -/
theorem processAudioFile_zero_duration (s o : ℚ) (ho : 0 < o) (hso : o < s) :
    totalChunks 0 s o = 0 ∧ processAudioFileChunks 0 s o = [] := by
  have hc : totalChunks 0 s o = 0 := by
    unfold totalChunks
    rw [zero_div]
    simp
  exact ⟨hc, by unfold processAudioFileChunks; rw [hc]; rfl⟩

/-- Witness for `processAudioFile_zero_duration` at the default options
`chunkMinutes = 10`, `overlapMinutes = 1`. -/
theorem processAudioFile_zero_duration_witness :
    (0:ℚ) < 1 ∧ (1:ℚ) < 10 ∧ totalChunks 0 10 1 = 0 ∧ processAudioFileChunks 0 10 1 = [] := by
  refine ⟨by norm_num, by norm_num, ?_⟩
  exact processAudioFile_zero_duration 10 1 (by norm_num) (by norm_num)

/-! ## Chunked upload (`/api/upload-chunk/:jobId`, api.ts)

State per upload session (interface `FileUploadStatus`): a map from chunk
index to the stored chunk path, counters `receivedChunks` / `totalChunks`,
and a `completed` flag (initialised `false` by `/api/init-upload` and never
set to `true` anywhere in the source).  On every successfully stored chunk
the handler runs

  uploadStatus.chunks[chunkIndex] = req.file.path;
  uploadStatus.receivedChunks++;
  uploadStatus.totalChunks = totalChunks;

and responds `{chunkIndex, receivedChunks, totalChunks,
complete: receivedChunks === totalChunks}` — the increment is
unconditional, also when the index was already present. -/

structure FileUploadStatus where
  chunks : ℕ → Option String
  totalChunks : ℕ
  receivedChunks : ℕ
  completed : Bool

structure ChunkResponse where
  chunkIndex : ℕ
  receivedChunks : ℕ
  totalChunks : ℕ
  complete : Bool

/-- Session created by `/api/init-upload` (no chunk received yet). -/
def initUploadSession (totalChunks : ℕ) : FileUploadStatus :=
  { chunks := fun _ => none
    totalChunks := totalChunks
    receivedChunks := 0
    completed := false }

/-- The `/api/upload-chunk/:jobId` state update and response. -/
def uploadChunk (st : FileUploadStatus) (chunkIndex totalChunks : ℕ)
    (chunkPath : String) : FileUploadStatus × ChunkResponse :=
  let st' : FileUploadStatus :=
    { st with
      chunks := fun j => if j = chunkIndex then some chunkPath else st.chunks j
      receivedChunks := st.receivedChunks + 1
      totalChunks := totalChunks }
  (st', { chunkIndex := chunkIndex
          receivedChunks := st'.receivedChunks
          totalChunks := totalChunks
          complete := st'.receivedChunks == totalChunks })

/-- C2 failing input, evaluated.  One expected part; part 0 is delivered,
the response reports `receivedCount 1, complete true`; the same part is
delivered again (for instance a client retry after a lost response) and
the handler increments the counter again: the duplicate response reports
`receivedCount 2, complete false`, and the session's `receivedChunks`
stays 2 ≠ 1 forever, so the duplicate delivery is not a no-op and
completion can never be reported again. -/
theorem upload_chunk_duplicate_not_noop :
    (uploadChunk (initUploadSession 1) 0 1 "chunk-0").2.receivedChunks = 1 ∧
    (uploadChunk (initUploadSession 1) 0 1 "chunk-0").2.complete = true ∧
    (uploadChunk (uploadChunk (initUploadSession 1) 0 1 "chunk-0").1 0 1
      "chunk-0").2.receivedChunks = 2 ∧
    (uploadChunk (uploadChunk (initUploadSession 1) 0 1 "chunk-0").1 0 1
      "chunk-0").2.complete = false := by
  exact ⟨rfl, rfl, rfl, rfl⟩

/-! ## JavaScript string operations

The transcription and report code relies on a handful of JS string
methods.  They are re-implemented here structurally over `List Char`
(via `String.mk` / `String.data`) so that concrete inputs evaluate inside
the kernel.  Inputs of interest are ASCII; the slight differences between
the JS and Lean notions of whitespace for exotic code points are outside
the claims. -/

/-- Whitespace as used by `String.prototype.trim` (ASCII part). -/
def jsIsWhitespace (c : Char) : Bool :=
  c = ' ' || c = '\t' || c = '\n' || c = '\r' || c.toNat = 11 || c.toNat = 12

/-- Character-level `trim`. -/
def jsTrimChars (l : List Char) : List Char :=
  ((l.dropWhile jsIsWhitespace).reverse.dropWhile jsIsWhitespace).reverse

/-- JS `s.trim()`. -/
def jsTrim (s : String) : String :=
  String.mk (jsTrimChars s.data)

/-- Character-level `split("\n")`. -/
def splitNlChars : List Char → List (List Char)
  | [] => [[]]
  | c :: rest =>
    if c = '\n' then [] :: splitNlChars rest
    else
      match splitNlChars rest with
      | [] => [[c]]
      | h :: t => (c :: h) :: t

/-- JS `s.split("\n")`. -/
def jsSplitNl (s : String) : List String :=
  (splitNlChars s.data).map String.mk

/-- JS `s.startsWith(c)` for a one-character needle (the source only tests
single characters: `"{"`, `"["`, `"#"`). -/
def jsStartsWithChar (c : Char) (s : String) : Bool :=
  match s.data with
  | [] => false
  | d :: _ => d = c

/-- Character-level `join("\n")`. -/
def joinNlChars : List (List Char) → List Char
  | [] => []
  | [l] => l
  | l :: rest => l ++ '\n' :: joinNlChars rest

/-- JS `lines.join("\n")`. -/
def jsJoinNl (l : List String) : String :=
  String.mk (joinNlChars (l.map String.data))

/-- Ordered concatenation of a list of strings (JS `+=` accumulation). -/
def concatAll : List String → String
  | [] => ""
  | s :: rest => s ++ concatAll rest

/-- Fuelled worker for global (non-overlapping, left-to-right) pattern
replacement; the fuel is the input length, which suffices because every
step consumes at least one character. -/
def replaceAllAux (p : Char) (ps rep : List Char) : ℕ → List Char → List Char
  | 0, l => l
  | _ + 1, [] => []
  | fuel + 1, c :: rest =>
    if (p :: ps).isPrefixOf (c :: rest) then
      rep ++ replaceAllAux p ps rep fuel (rest.drop ps.length)
    else
      c :: replaceAllAux p ps rep fuel rest

/-- JS `s.replace(/pat/g, rep)` for a literal nonempty pattern. -/
def jsReplaceAll (s pat rep : String) : String :=
  match pat.data with
  | [] => s
  | p :: ps => String.mk (replaceAllAux p ps rep.data s.data.length s.data)

/-! ## Transcription stage (`generateTranscription`, transcribe.ts)

The per-chunk generation call is abstracted as a `ChunkOutcome`: the call
resolved with text, resolved with an error field, or threw (the source
catches the throw).  The loop state carries the accumulated
`chunkTranscriptions` array, the `transcriptionContent` string, and
`previousTranscription` — the context window handed to the next prompt.
File writes (`saveTranscriptionOutput`, `updateTranscriptionFile`) are
bookkeeping and are modelled as infallible. -/

inductive ChunkOutcome where
  | success (text : String)
  | errorResult (msg : String)
  | thrown (msg : String)
deriving DecidableEq

/-- Inline marker pushed for a failed chunk:
`\n[Transcription error for chunk i+1]\n`. -/
def errMarker (i : ℕ) : String :=
  "\n[Transcription error for chunk " ++ toString (i + 1) ++ "]\n"

/-- Cleaning applied to a successful chunk:
`text.trim()` then `replace(/~\[/g, "\n\n~[")`. -/
def cleanChunk (s : String) : String :=
  jsReplaceAll (jsTrim s) "~[" "\n\n~["

/-- `getLastNLines` (transcribe.ts): the last `n` non-empty lines, joined.
JS `lines.slice(-n)` keeps the trailing `min(n, length)` elements for the
positive `n` (20) used at the call site. -/
def getLastNLines (text : String) (n : ℕ) : String :=
  if text = "" then ""
  else
    let lines := (jsSplitNl text).filter (fun l => jsTrim l ≠ "")
    jsJoinNl (lines.drop (lines.length - n))

structure TranscribeState where
  chunkTranscriptions : List String
  transcriptionContent : String
  previousTranscription : String
deriving DecidableEq

/-- One iteration of the chunk loop (transcribe.ts lines 199-288). -/
def transcribeStep (st : TranscribeState) (i : ℕ) : ChunkOutcome → TranscribeState
  | .success t =>
    let ct := cleanChunk t
    { chunkTranscriptions := st.chunkTranscriptions ++ [ct]
      transcriptionContent :=
        st.transcriptionContent ++ ((if 0 < i then "\n\n" else "") ++ ct)
      previousTranscription := getLastNLines ct 20 }
  | .errorResult _ =>
    { st with
      chunkTranscriptions := st.chunkTranscriptions ++ [errMarker i]
      transcriptionContent := st.transcriptionContent ++ errMarker i }
  | .thrown _ =>
    { st with
      chunkTranscriptions := st.chunkTranscriptions ++ [errMarker i]
      transcriptionContent := st.transcriptionContent ++ errMarker i }

/-- The sequential chunk loop.  Besides the final state it returns the
trace of `previousTranscription` values as they entered each iteration —
the context actually embedded in each chunk's prompt. -/
def transcribeGo (st : TranscribeState) (i : ℕ) :
    List ChunkOutcome → TranscribeState × List String
  | [] => (st, [])
  | oc :: rest =>
    let r := transcribeGo (transcribeStep st i oc) (i + 1) rest
    (r.1, st.previousTranscription :: r.2)

def initialTranscribeState : TranscribeState :=
  { chunkTranscriptions := [], transcriptionContent := "", previousTranscription := "" }

/-- `generateTranscription`, abstracted over the per-chunk outcomes. -/
def generateTranscription (outcomes : List ChunkOutcome) :
    TranscribeState × List String :=
  transcribeGo initialTranscribeState 0 outcomes

/-- The element pushed onto `chunkTranscriptions` for chunk `i`. -/
def chunkEntry (i : ℕ) : ChunkOutcome → String
  | .success t => cleanChunk t
  | .errorResult _ => errMarker i
  | .thrown _ => errMarker i

/-- The text appended to `transcriptionContent` for chunk `i`. -/
def chunkContribution (i : ℕ) : ChunkOutcome → String
  | .success t => (if 0 < i then "\n\n" else "") ++ cleanChunk t
  | .errorResult _ => errMarker i
  | .thrown _ => errMarker i

/-- How `previousTranscription` evolves across one chunk. -/
def nextContext (prev : String) : ChunkOutcome → String
  | .success t => getLastNLines (cleanChunk t) 20
  | .errorResult _ => prev
  | .thrown _ => prev

/-- Closed form of the context trace. -/
def contextTrace (prev : String) : List ChunkOutcome → List String
  | [] => []
  | oc :: rest => prev :: contextTrace (nextContext prev oc) rest

def chunkFailed : ChunkOutcome → Bool
  | .success _ => false
  | .errorResult _ => true
  | .thrown _ => true

theorem transcribeStep_chunkTranscriptions (st : TranscribeState) (i : ℕ)
    (oc : ChunkOutcome) :
    (transcribeStep st i oc).chunkTranscriptions
      = st.chunkTranscriptions ++ [chunkEntry i oc] := by
  cases oc <;> rfl

theorem transcribeStep_content (st : TranscribeState) (i : ℕ) (oc : ChunkOutcome) :
    (transcribeStep st i oc).transcriptionContent
      = st.transcriptionContent ++ chunkContribution i oc := by
  cases oc <;> rfl

theorem transcribeStep_previous (st : TranscribeState) (i : ℕ) (oc : ChunkOutcome) :
    (transcribeStep st i oc).previousTranscription
      = nextContext st.previousTranscription oc := by
  cases oc <;> rfl

theorem transcribeGo_spec (ocs : List ChunkOutcome) :
    ∀ (st : TranscribeState) (i : ℕ),
    (transcribeGo st i ocs).1.chunkTranscriptions
      = st.chunkTranscriptions
        ++ (List.enumFrom i ocs).map (fun p => chunkEntry p.1 p.2) ∧
    (transcribeGo st i ocs).1.transcriptionContent
      = st.transcriptionContent
        ++ concatAll ((List.enumFrom i ocs).map (fun p => chunkContribution p.1 p.2)) ∧
    (transcribeGo st i ocs).2 = contextTrace st.previousTranscription ocs := by
  induction ocs with
  | nil =>
    intro st i
    refine ⟨?_, ?_, rfl⟩ <;> simp [transcribeGo, concatAll]
  | cons oc rest ih =>
    intro st i
    obtain ⟨h1, h2, h3⟩ := ih (transcribeStep st i oc) (i + 1)
    refine ⟨?_, ?_, ?_⟩
    · show (transcribeGo (transcribeStep st i oc) (i+1) rest).1.chunkTranscriptions = _
      rw [h1, transcribeStep_chunkTranscriptions]
      simp [List.enumFrom]
    · show (transcribeGo (transcribeStep st i oc) (i+1) rest).1.transcriptionContent = _
      rw [h2, transcribeStep_content]
      show _ = st.transcriptionContent
        ++ concatAll (chunkContribution i oc
              :: (List.enumFrom (i+1) rest).map (fun p => chunkContribution p.1 p.2))
      rw [show ∀ (a : String) (l : List String), concatAll (a :: l) = a ++ concatAll l
            from fun a l => rfl]
      rw [String.append_assoc]
    · show st.previousTranscription
          :: (transcribeGo (transcribeStep st i oc) (i+1) rest).2 = _
      rw [h3, transcribeStep_previous]
      rfl

/-- C3.  For every list of per-chunk outcomes — including ones where some
or all chunk calls fail — the chunk loop produces exactly one
`chunkTranscriptions` entry per segment, the entries are the cleaned texts
and the inline error markers in segment index order, and the final
transcript `transcriptionContent` is their ordered concatenation. -/
theorem transcription_chunk_count_and_order (outcomes : List ChunkOutcome) :
    (generateTranscription outcomes).1.chunkTranscriptions.length = outcomes.length ∧
    (generateTranscription outcomes).1.chunkTranscriptions
      = (List.enumFrom 0 outcomes).map (fun p => chunkEntry p.1 p.2) ∧
    (generateTranscription outcomes).1.transcriptionContent
      = concatAll ((List.enumFrom 0 outcomes).map (fun p => chunkContribution p.1 p.2)) := by
  obtain ⟨h1, h2, h3⟩ := transcribeGo_spec outcomes initialTranscribeState 0
  have e1 : (generateTranscription outcomes).1.chunkTranscriptions
      = (List.enumFrom 0 outcomes).map (fun p => chunkEntry p.1 p.2) := by
    unfold generateTranscription
    rw [h1]
    rfl
  have e2 : (generateTranscription outcomes).1.transcriptionContent
      = concatAll ((List.enumFrom 0 outcomes).map (fun p => chunkContribution p.1 p.2)) := by
    unfold generateTranscription
    rw [h2]
    show "" ++ _ = _
    simp
  refine ⟨?_, e1, e2⟩
  rw [e1]
  simp

theorem contextTrace_length (ocs : List ChunkOutcome) :
    ∀ p, (contextTrace p ocs).length = ocs.length := by
  induction ocs with
  | nil => intro p; rfl
  | cons oc rest ih =>
    intro p
    show (contextTrace p (oc :: rest)).length = rest.length + 1
    unfold contextTrace
    simp [ih]

theorem contextTrace_getD_zero (ocs : List ChunkOutcome) (p : String)
    (h : 0 < ocs.length) : (contextTrace p ocs).getD 0 "" = p := by
  cases ocs with
  | nil => simp at h
  | cons oc rest => rfl

theorem contextTrace_step (ocs : List ChunkOutcome) :
    ∀ (p : String) (i : ℕ), i + 1 < ocs.length →
    (contextTrace p ocs).getD (i + 1) ""
      = nextContext ((contextTrace p ocs).getD i "") (ocs.getD i (.thrown "")) := by
  induction ocs with
  | nil => intro p i h; simp at h
  | cons oc rest ih =>
    intro p i h
    cases i with
    | zero =>
      have hr : 0 < rest.length := by
        simp at h
        omega
      show (contextTrace (nextContext p oc) rest).getD 0 ""
        = nextContext ((contextTrace p (oc :: rest)).getD 0 "") ((oc :: rest).getD 0 (.thrown ""))
      rw [contextTrace_getD_zero rest (nextContext p oc) hr]
      rfl
    | succ j =>
      have hj : j + 1 < rest.length := by
        simp at h
        omega
      show (contextTrace (nextContext p oc) rest).getD (j + 1) "" = _
      rw [ih (nextContext p oc) j hj]
      rfl

/-- C4.  The context handed to each chunk's prompt: every chunk gets a
context (a per-chunk failure never aborts the loop), the first chunk's
context is empty, and the context entering chunk `i+1` is unchanged from
chunk `i`'s context when chunk `i` failed (returned an error or threw),
and is the 20-non-empty-line trailing window of chunk `i`'s cleaned text
when chunk `i` succeeded. -/
theorem transcription_context_isolation (outcomes : List ChunkOutcome) :
    (generateTranscription outcomes).2.length = outcomes.length ∧
    (0 < outcomes.length → (generateTranscription outcomes).2.getD 0 "" = "") ∧
    (∀ i, i + 1 < outcomes.length →
      (chunkFailed (outcomes.getD i (.thrown "")) = true →
        (generateTranscription outcomes).2.getD (i + 1) ""
          = (generateTranscription outcomes).2.getD i "") ∧
      (∀ t, outcomes.getD i (.thrown "") = .success t →
        (generateTranscription outcomes).2.getD (i + 1) ""
          = getLastNLines (cleanChunk t) 20)) := by
  have hctx : (generateTranscription outcomes).2 = contextTrace "" outcomes :=
    (transcribeGo_spec outcomes initialTranscribeState 0).2.2
  rw [hctx]
  refine ⟨contextTrace_length outcomes "", fun h => contextTrace_getD_zero outcomes "" h, ?_⟩
  intro i hi
  constructor
  · intro hfail
    rw [contextTrace_step outcomes "" i hi]
    cases hoc : outcomes.getD i (.thrown "") with
    | success t => rw [hoc] at hfail; simp [chunkFailed] at hfail
    | errorResult m => rfl
    | thrown m => rfl
  · intro t hoc
    rw [contextTrace_step outcomes "" i hi, hoc]
    rfl

/-- Concrete run used to witness `transcription_context_isolation`:
chunk 0 succeeds, chunk 1 fails with a returned error, chunk 2 succeeds. -/
def demoOutcomes : List ChunkOutcome :=
  [.success "~[Alice]~: hello there", .errorResult "service unavailable",
   .success "~[Bob]~: continuing"]

/-- Witness for `transcription_context_isolation`: on `demoOutcomes`, the
failure of chunk 1 leaves the context for chunk 2 identical to the context
chunk 1 itself received, while the success of chunk 0 set chunk 1's
context to the trailing window of its cleaned text. -/
theorem transcription_context_isolation_witness :
    (generateTranscription demoOutcomes).2.getD 2 ""
      = (generateTranscription demoOutcomes).2.getD 1 "" ∧
    (generateTranscription demoOutcomes).2.getD 1 ""
      = getLastNLines (cleanChunk "~[Alice]~: hello there") 20 := by
  refine ⟨?_, ?_⟩
  · exact ((transcription_context_isolation demoOutcomes).2.2 1 (by decide)).1 (by decide)
  · exact ((transcription_context_isolation demoOutcomes).2.2 0 (by decide)).2
      "~[Alice]~: hello there" (by decide)

/-! ## JSON validity (`JSON.parse` success, RFC 8259)

`isValidSectionContent` (report.ts) calls the platform's `JSON.parse` to
reject section bodies that are JSON.  Modelled from the spec:
`JSON.parse(text)` succeeds exactly when `text` is a JSON value (object,
array, string, number, `true`, `false`, `null`) surrounded by optional
JSON whitespace.  The checker below is a fuelled recursive-descent
recogniser for that grammar; the fuel (input length + 1) suffices because
every recursive step consumes at least one character. -/

def isJsonWsChar (c : Char) : Bool :=
  c = ' ' || c = '\t' || c = '\n' || c = '\r'

def skipJsonWs : List Char → List Char
  | [] => []
  | c :: rest => if isJsonWsChar c then skipJsonWs rest else c :: rest

def isHexDigitChar (c : Char) : Bool :=
  c.isDigit || ('a' ≤ c && c ≤ 'f') || ('A' ≤ c && c ≤ 'F')

/-- Recognise the remainder of a JSON string after its opening quote. -/
def jsonStringAux : ℕ → List Char → Option (List Char)
  | 0, _ => none
  | _ + 1, [] => none
  | fuel + 1, c :: rest =>
    if c = '"' then some rest
    else if c = '\\' then
      match rest with
      | [] => none
      | e :: r2 =>
        if e = '"' || e = '\\' || e = '/' || e = 'b' || e = 'f'
            || e = 'n' || e = 'r' || e = 't' then
          jsonStringAux fuel r2
        else if e = 'u' then
          match r2 with
          | h1 :: h2 :: h3 :: h4 :: r3 =>
            if isHexDigitChar h1 && isHexDigitChar h2
                && isHexDigitChar h3 && isHexDigitChar h4 then
              jsonStringAux fuel r3
            else none
          | _ => none
        else none
    else if c.toNat < 32 then none
    else jsonStringAux fuel rest

/-- Consume a maximal run of decimal digits, returning how many. -/
def spanDigits : List Char → ℕ × List Char
  | [] => (0, [])
  | c :: rest =>
    if c.isDigit then
      let r := spanDigits rest
      (r.1 + 1, r.2)
    else (0, c :: rest)

/-- Recognise the optional fraction and exponent of a JSON number. -/
def parseJsonFracExp (l : List Char) : Option (List Char) :=
  let afterFrac : Option (List Char) :=
    match l with
    | '.' :: r =>
      match spanDigits r with
      | (0, _) => none
      | (_ + 1, r2) => some r2
    | _ => some l
  match afterFrac with
  | none => none
  | some l3 =>
    match l3 with
    | e :: r =>
      if e = 'e' || e = 'E' then
        let r2 := match r with
          | '+' :: rr => rr
          | '-' :: rr => rr
          | _ => r
        match spanDigits r2 with
        | (0, _) => none
        | (_ + 1, r3) => some r3
      else some l3
    | [] => some l3

/-- Recognise a JSON number (`-?(0|[1-9][0-9]*)(\.[0-9]+)?([eE][+-]?[0-9]+)?`). -/
def parseJsonNumber (l : List Char) : Option (List Char) :=
  let l1 := match l with
    | '-' :: r => r
    | _ => l
  match l1 with
  | [] => none
  | c :: rest =>
    if c = '0' then parseJsonFracExp rest
    else if c.isDigit then parseJsonFracExp (spanDigits rest).2
    else none

/-- Expect the given literal characters. -/
def expectChars : List Char → List Char → Option (List Char)
  | [], l => some l
  | _ :: _, [] => none
  | c :: cs, d :: ds => if d = c then expectChars cs ds else none

inductive JsonMode where
  | val
  | members
  | elements

/-- Fuelled JSON recogniser: a value, the members of an object after `{`,
or the elements of an array after `[`. -/
def jsonParseAux : ℕ → JsonMode → List Char → Option (List Char)
  | 0, _, _ => none
  | fuel + 1, .val, s =>
    match skipJsonWs s with
    | [] => none
    | '{' :: rest =>
      (match skipJsonWs rest with
       | '}' :: r2 => some r2
       | r2 => jsonParseAux fuel .members r2)
    | '[' :: rest =>
      (match skipJsonWs rest with
       | ']' :: r2 => some r2
       | r2 => jsonParseAux fuel .elements r2)
    | '"' :: rest => jsonStringAux rest.length rest
    | 't' :: rest => expectChars ['r', 'u', 'e'] rest
    | 'f' :: rest => expectChars ['a', 'l', 's', 'e'] rest
    | 'n' :: rest => expectChars ['u', 'l', 'l'] rest
    | s1 => parseJsonNumber s1
  | fuel + 1, .members, s =>
    match skipJsonWs s with
    | '"' :: rest =>
      (match jsonStringAux rest.length rest with
       | none => none
       | some r1 =>
         match skipJsonWs r1 with
         | ':' :: r2 =>
           (match jsonParseAux fuel .val r2 with
            | none => none
            | some r3 =>
              match skipJsonWs r3 with
              | ',' :: r4 => jsonParseAux fuel .members r4
              | '}' :: r4 => some r4
              | _ => none)
         | _ => none)
    | _ => none
  | fuel + 1, .elements, s =>
    match jsonParseAux fuel .val s with
    | none => none
    | some r1 =>
      match skipJsonWs r1 with
      | ',' :: r2 => jsonParseAux fuel .elements r2
      | ']' :: r2 => some r2
      | _ => none

/-- Whether `JSON.parse` succeeds on `s`. -/
def jsonOk (s : String) : Bool :=
  match jsonParseAux (s.data.length + 1) .val s.data with
  | some rest => (skipJsonWs rest).isEmpty
  | none => false

/-! ## Report section validation and fill (`report.ts`)

`isValidSectionContent` rejects a body when (in this order): its trimmed
text starts with a brace or bracket character and `JSON.parse` succeeds on
it; its trimmed length is below 10; or every line is a heading (`#`...)
or blank.  `generateReport`'s per-section logic then accepts the first
response, or — when the first response carried no transport error but its
body was invalid — makes exactly one stricter plain-text retry, and falls
back to the explicit placeholder `*Error generating content*`. -/

/-- First rejection test: trimmed content starts with the object or array
opener (the source's `startsWith` checks on `content.trim()`). -/
def sectionJsonGate (content : String) : Bool :=
  jsStartsWithChar '{' (jsTrim content) || jsStartsWithChar '[' (jsTrim content)

/-- Second rejection test: `content.trim().length < 10`. -/
def sectionTooShort (content : String) : Bool :=
  (jsTrim content).length < 10

/-- Third rejection test: every line of the trimmed content starts with
`#` or is blank. -/
def sectionHeadingOnly (content : String) : Bool :=
  (jsSplitNl (jsTrim content)).all
    (fun line => jsStartsWithChar '#' line || jsTrim line == "")

/-- `isValidSectionContent` (report.ts lines 35-60). -/
def isValidSectionContent (content : String) : Bool :=
  if sectionJsonGate content && jsonOk content then false
  else if sectionTooShort content then false
  else if sectionHeadingOnly content then false
  else true

/-- Result shape of the generation adapter (`GeminiResponse`): text plus
an optional error field.  A successful call has `error = none`. -/
structure GeminiResponse where
  text : String
  error : Option String
deriving DecidableEq

def errorPlaceholder : String := "*Error generating content*"

/-- The final body chosen for one report section, given the first fill
response and the (lazily consulted) stricter-retry response
(report.ts lines 377-431). -/
def fillSection (first retryResp : GeminiResponse) : String :=
  if first.error.isSome || !(isValidSectionContent first.text) then
    if first.error.isNone && !(isValidSectionContent first.text) then
      if retryResp.error.isNone && isValidSectionContent retryResp.text then
        retryResp.text
      else errorPlaceholder
    else errorPlaceholder
  else first.text

/-- Whether the stricter plain-text retry is issued: exactly when the
first response had no transport error but invalid content. -/
def sectionRetried (first : GeminiResponse) : Bool :=
  first.error.isNone && !(isValidSectionContent first.text)

/-- A section body that is a bare JSON string literal: `JSON.parse`
succeeds on it, yet it does not start with a brace or bracket. -/
def jsonScalarBody : String := "\"a plain JSON string describing the meeting\""

/-- C5 counterexample.  `jsonScalarBody` parses as JSON, yet
`isValidSectionContent` accepts it (the JSON rejection is gated on a
leading brace or bracket), no plain-text retry is issued, and the fill
logic adopts it verbatim as the section's final text — contradicting "a
body that parses as JSON is never accepted as the section's final
text". -/
theorem json_scalar_section_accepted_counterexample :
    jsonOk jsonScalarBody = true ∧
    isValidSectionContent jsonScalarBody = true ∧
    sectionRetried { text := jsonScalarBody, error := none } = false ∧
    fillSection { text := jsonScalarBody, error := none }
        { text := errorPlaceholder, error := some "retry is never issued here" }
      = jsonScalarBody := by
  refine ⟨rfl, rfl, rfl, rfl⟩

/-- C5 (amended).  A body whose trimmed text starts with a brace or
bracket and parses as JSON is never accepted; bodies below the minimum
length or consisting only of headings are likewise never accepted; and
whenever the first response has no transport error but invalid content,
exactly one stricter plain-text retry decides the section: its text if
error-free and valid, else the explicit error placeholder.  (JSON bodies
not starting with a brace or bracket escape the JSON rejection, as the
counterexample shows.) -/
theorem section_validation_amended :
    (∀ c : String, sectionJsonGate c = true → jsonOk c = true →
      isValidSectionContent c = false) ∧
    (∀ c : String, sectionTooShort c = true → isValidSectionContent c = false) ∧
    (∀ c : String, sectionHeadingOnly c = true → isValidSectionContent c = false) ∧
    (∀ first retryResp : GeminiResponse,
      first.error = none → isValidSectionContent first.text = false →
      sectionRetried first = true ∧
      fillSection first retryResp =
        (if retryResp.error.isNone && isValidSectionContent retryResp.text then
          retryResp.text
        else errorPlaceholder)) := by
  refine ⟨?_, ?_, ?_, ?_⟩
  · intro c h1 h2
    unfold isValidSectionContent
    rw [h1, h2]
    rfl
  · intro c h
    unfold isValidSectionContent
    rw [h]
    split <;> rfl
  · intro c h
    unfold isValidSectionContent
    rw [h]
    split
    · rfl
    · split <;> rfl
  · intro first retryResp herr hinv
    have hretry : sectionRetried first = true := by
      unfold sectionRetried
      rw [herr, hinv]
      rfl
    refine ⟨hretry, ?_⟩
    unfold fillSection
    rw [herr, hinv]
    rfl

/-- Witness for `section_validation_amended`: a too-short first body
triggers the single retry, and the valid retry text becomes the section
body, by applying the theorem at concrete responses. -/
theorem section_validation_amended_witness :
    sectionRetried { text := "short", error := none } = true ∧
    fillSection { text := "short", error := none }
        { text := "The team agreed on the next steps and on owners.", error := none }
      = "The team agreed on the next steps and on owners." ∧
    isValidSectionContent "[1, 2, 3]" = false ∧
    isValidSectionContent "short" = false ∧
    isValidSectionContent "# Agenda\n## Topics" = false := by
  have h := section_validation_amended.2.2.2
    { text := "short", error := none }
    { text := "The team agreed on the next steps and on owners.", error := none }
    rfl (by rfl)
  refine ⟨h.1, ?_, ?_, ?_, ?_⟩
  · rw [h.2]
    rfl
  · exact section_validation_amended.1 "[1, 2, 3]" (by rfl) (by rfl)
  · exact section_validation_amended.2.1 "short" (by rfl)
  · exact section_validation_amended.2.2.1 "# Agenda\n## Topics" (by rfl)

/-! ## Report document assembly (`generateReport`, report.ts)

The visible report document is one flat markdown string.  `generateReport`
initialises it as `[metadata, "# Meeting Report",
"\n*(Report generation in progress...)*"].join("\n\n")`;
`updateReportStructure` keeps everything up to the end of the first
occurrence of `# Meeting Report` and appends a structure message plus one
`## title` placeholder block per outline entry, joined by blank lines;
`updateReportSection` locates a section by `indexOf("## " + title)` on the
flat text — an unanchored substring search — keeps the text up to the end
of that match, splices the new content, resumes at the next occurrence of
`"## "` (searched from match position + 3, or end of text), and then
inserts a progress indicator directly after the first occurrence of
`# Meeting Report` (`afterTitlePos` is computed without re-checking for
-1; a missing title would place it at offset 15).  The whole document
pipeline is modelled below at that string level, character for character.
The per-section loop is sequential; each iteration either ends with a fill
result (first and retry responses) or with a thrown exception, which the
source catches and replaces with the error placeholder.  `finalizeReport`
is not modelled: its removal patterns (`*Progress: ...*`, the structure
message, the placeholders, surplus blank lines) contain no `## ` and JS
`.` does not match a newline, so it rewrites text strictly inside lines
and never adds or removes a `## ` heading line. -/

/-- One outline entry (`ReportSection` in prompts.ts). -/
structure RSection where
  title : String
  description : String
  subsections : List (String × String)
deriving DecidableEq

def sectionPlaceholder : String := "*(Content being generated...)*"

/-- Outcome of one section's fill iteration: the two generation responses
(the retry response consulted only when needed), or a thrown exception,
which the source catches. -/
inductive SectionOutcome where
  | results (first retryResp : GeminiResponse)
  | thrown (msg : String)

/-- The content a section ends with under the given outcome. -/
def sectionFinalContent : SectionOutcome → String
  | .results f r => fillSection f r
  | .thrown _ => errorPlaceholder

/-- Position of the first occurrence of `pat`, if any. -/
def firstOcc (pat : List Char) : List Char → Option ℕ
  | [] => if pat.isEmpty then some 0 else none
  | c :: rest =>
    if pat.isPrefixOf (c :: rest) then some 0
    else (firstOcc pat rest).map (· + 1)

/-- JS `doc.indexOf(pat)` (`none` for -1). -/
def jsIndexOf (doc pat : List Char) : Option ℕ :=
  firstOcc pat doc

/-- JS `doc.indexOf(pat, start)`: first occurrence at or after `start`. -/
def jsIndexOfFrom (doc pat : List Char) (start : ℕ) : Option ℕ :=
  (firstOcc pat (doc.drop start)).map (· + start)

def meetingReportTitle : List Char := "# Meeting Report".data

def h2Marker : List Char := "## ".data

/-- JS `arr.join("\n\n")` at the character level. -/
def joinSepNlNl : List (List Char) → List Char
  | [] => []
  | [l] => l
  | l :: rest => l ++ '\n' :: '\n' :: joinSepNlNl rest

/-- `Math.round((currentSection / totalSections) * 100)` for the progress
line, in exact arithmetic: round-half-up of `100*cur/total` (the loop
always runs with `totalSections ≥ 1`). -/
def progressPercent (currentSection totalSections : ℕ) : ℕ :=
  (200 * currentSection + totalSections) / (2 * totalSections)

/-- The progress indicator `updateReportSection` inserts after the main
title. -/
def progressIndicator (currentSection totalSections : ℕ) : List Char :=
  ("\n\n*Progress: " ++ toString currentSection ++ "/" ++ toString totalSections
    ++ " sections completed ("
    ++ toString (progressPercent currentSection totalSections) ++ "%)*").data

/-- The initial report document
(`[metadata, "# Meeting Report", "\n*(Report generation in progress...)*"].join("\n\n")`). -/
def generateReportInitialDoc (metadata : List Char) : List Char :=
  joinSepNlNl [metadata, meetingReportTitle,
    ("\n*(Report generation in progress...)*").data]

/-- `updateReportStructure` (report.ts lines 124-150) on the flat text. -/
def updateReportStructure (doc : List Char) (sections : List RSection) : List Char :=
  match jsIndexOf doc meetingReportTitle with
  | none => doc
  | some titlePos =>
    let sectionPlaceholders :=
      joinSepNlNl (sections.map
        (fun sec => ("## " ++ sec.title ++ "\n\n" ++ sectionPlaceholder).data))
    doc.take (titlePos + meetingReportTitle.length)
      ++ ("\n\n*Report structure created. Generating content for "
          ++ toString sections.length ++ " sections...*\n\n").data
      ++ sectionPlaceholders

/-- `updateReportSection` (report.ts lines 153-201) on the flat text:
unanchored `indexOf` splicing plus the progress-indicator insertion. -/
def updateReportSection (doc : List Char) (sectionTitle sectionContent : List Char)
    (currentSection totalSections : ℕ) : List Char :=
  match jsIndexOf doc (h2Marker ++ sectionTitle) with
  | none => doc
  | some sectionHeaderPos =>
    let nextSectionPos :=
      match jsIndexOfFrom doc h2Marker (sectionHeaderPos + 3) with
      | none => doc.length
      | some p => p
    let newContent :=
      doc.take (sectionHeaderPos + (h2Marker ++ sectionTitle).length)
        ++ '\n' :: '\n' :: sectionContent
        ++ '\n' :: '\n' :: doc.drop nextSectionPos
    let afterTitlePos :=
      match jsIndexOf newContent meetingReportTitle with
      | none => 15
      | some titlePos => titlePos + meetingReportTitle.length
    newContent.take afterTitlePos
      ++ progressIndicator currentSection totalSections
      ++ newContent.drop afterTitlePos

/-- The document flow of `generateReport`'s section phase: seed the
structure, then run the sequential per-section loop, each iteration
splicing its final content under the given title. -/
def generateReportDoc (metadata : List Char) (sections : List RSection)
    (outcomes : ℕ → SectionOutcome) : List Char :=
  (List.enumFrom 0 sections).foldl
    (fun doc p =>
      updateReportSection doc p.2.title.data (sectionFinalContent (outcomes p.1)).data
        (p.1 + 1) sections.length)
    (updateReportStructure (generateReportInitialDoc metadata) sections)

/-- The section headings of a document: its `## `-prefixed lines, marker
stripped, in document order. -/
def docHeadings (doc : List Char) : List String :=
  ((splitNlChars doc).filter (fun line => h2Marker.isPrefixOf line)).map
    (fun line => String.mk (line.drop 3))

/-- The lines of a document, as strings. -/
def docLines (doc : List Char) : List String :=
  (splitNlChars doc).map String.mk

/-- Metadata block for the failing run (it contains neither `## ` nor
`# Meeting Report`, as real metadata does not). -/
def demoMetadata : List Char :=
  "# File Metadata\n- **Report Name:** weekly_sync_report\n".data

/-- An outline in which one section title is a proper prefix of an
earlier one — reachable, since titles are unconstrained model output and
the spec itself mandates an action-items section. -/
def demoOutline : List RSection :=
  [{ title := "Action Items", description := "Tasks agreed in the meeting",
     subsections := [] },
   { title := "Action", description := "The single most important next step",
     subsections := [] }]

/-- Both fill calls succeed with valid (accepted) section bodies. -/
def demoSectionOutcomes : ℕ → SectionOutcome :=
  fun i => .results
    { text := if i = 0 then "Owners were assigned for every follow-up task."
              else "The launch review was chosen as the next step."
      error := none }
    { text := "", error := none }

set_option maxRecDepth 100000 in
/-- C6, evaluated at the failing input.  With outline
`["Action Items", "Action"]` and both fills returning valid content, the
second update's `indexOf("## Action")` matches the prefix of the
`## Action Items` heading: that heading is truncated to `## Action`, the
already-filled Action Items body is destroyed, and the real Action block
keeps its placeholder.  The final document's heading sequence is
`[Action, Action]`, not one section per outline entry in outline order. -/
theorem report_prefix_title_collision :
    demoOutline.map RSection.title = ["Action Items", "Action"] ∧
    docHeadings (generateReportDoc demoMetadata demoOutline demoSectionOutcomes)
      = ["Action", "Action"] ∧
    docHeadings (generateReportDoc demoMetadata demoOutline demoSectionOutcomes)
      ≠ demoOutline.map RSection.title ∧
    sectionPlaceholder
      ∈ docLines (generateReportDoc demoMetadata demoOutline demoSectionOutcomes) ∧
    ("Owners were assigned for every follow-up task." : String)
      ∉ docLines (generateReportDoc demoMetadata demoOutline demoSectionOutcomes) := by
  refine ⟨rfl, ?_, ?_, ?_, ?_⟩ <;> decide

/-! ## Screenshot timestamps (`extractVideoScreenshots`, utils/screenshot.ts)

The source computes

  startTime = duration * 0.01
  endTime   = duration * 0.99
  interval  = (endTime - startTime) / (screenshotCount - 1)
  timestamp i = startTime + interval * i      (i = 0 .. count-1)

in JS floats; modelled here in exact arithmetic.  For `count = 1` the
source divides by zero (an IEEE artifact giving NaN); in `ℚ`, division by
zero is zero, so statements are made for `count ≥ 2`, where both
semantics agree. -/

def screenshotStartTime (duration : ℚ) : ℚ := duration * (1 / 100)

def screenshotEndTime (duration : ℚ) : ℚ := duration * (99 / 100)

def screenshotInterval (duration : ℚ) (count : ℕ) : ℚ :=
  (screenshotEndTime duration - screenshotStartTime duration) / ((count : ℚ) - 1)

/-- The ordered list of screenshot timestamps. -/
def extractVideoScreenshotTimestamps (duration : ℚ) (count : ℕ) : List ℚ :=
  (List.range count).map
    (fun (i : ℕ) => screenshotStartTime duration + screenshotInterval duration count * (i : ℚ))

/-- C7 counterexample.  For duration 100 and 2 screenshots the timestamps
are exactly `[1, 99]` — the first equals 1% of the duration and the last
equals 99% of it, so they do not lie strictly within
`(0.01·D, 0.99·D)` as claimed. -/
theorem screenshot_bounds_counterexample :
    extractVideoScreenshotTimestamps 100 2 = [1, 99] ∧
    ¬ (∀ t ∈ extractVideoScreenshotTimestamps 100 2,
        100 * (1 / 100 : ℚ) < t ∧ t < 100 * (99 / 100 : ℚ)) := by
  have h : extractVideoScreenshotTimestamps 100 2 = [1, 99] := by
    unfold extractVideoScreenshotTimestamps screenshotInterval
      screenshotStartTime screenshotEndTime
    norm_num [List.range_succ]
  refine ⟨h, ?_⟩
  intro hall
  have := (hall 1 (by rw [h]; simp)).1
  norm_num at this

/-- C7 (amended).  For every duration `D > 0` and screenshot count
`n ≥ 2`, the `n` timestamps are evenly spaced (consecutive differences
all equal the computed interval), they all lie in the closed interval
`[0.01·D, 0.99·D]`, and both endpoints are attained: the first timestamp
is exactly 1% and the last exactly 99% of the duration. -/
theorem screenshot_timestamps_spaced (D : ℚ) (n : ℕ) (hD : 0 < D) (hn : 2 ≤ n) :
    (extractVideoScreenshotTimestamps D n).length = n ∧
    (∀ i, (screenshotStartTime D + screenshotInterval D n * (i + 1 : ℕ))
        - (screenshotStartTime D + screenshotInterval D n * (i : ℕ))
        = screenshotInterval D n) ∧
    (∀ t ∈ extractVideoScreenshotTimestamps D n,
      D * (1 / 100) ≤ t ∧ t ≤ D * (99 / 100)) ∧
    D * (1 / 100) ∈ extractVideoScreenshotTimestamps D n ∧
    D * (99 / 100) ∈ extractVideoScreenshotTimestamps D n := by
  have hne : ((n : ℚ) - 1) ≠ 0 := by
    have h2 : (2 : ℚ) ≤ (n : ℚ) := by exact_mod_cast hn
    intro h
    nlinarith
  have hpos : (0 : ℚ) < (n : ℚ) - 1 := by
    have h2 : (2 : ℚ) ≤ (n : ℚ) := by exact_mod_cast hn
    linarith
  have hint : 0 ≤ screenshotInterval D n := by
    unfold screenshotInterval screenshotStartTime screenshotEndTime
    apply div_nonneg _ hpos.le
    nlinarith
  have hsum : ((n : ℚ) - 1) * screenshotInterval D n
      = D * (99 / 100) - D * (1 / 100) := by
    unfold screenshotInterval screenshotStartTime screenshotEndTime
    field_simp
    ring
  refine ⟨?_, ?_, ?_, ?_, ?_⟩
  · unfold extractVideoScreenshotTimestamps
    simp
  · intro i
    push_cast
    ring
  · intro t ht
    unfold extractVideoScreenshotTimestamps at ht
    rw [List.mem_map] at ht
    obtain ⟨i, hi, rfl⟩ := ht
    rw [List.mem_range] at hi
    have hile : (i : ℚ) ≤ (n : ℚ) - 1 := by
      have : (i : ℚ) + 1 ≤ (n : ℚ) := by exact_mod_cast hi
      linarith
    constructor
    · unfold screenshotStartTime
      have : 0 ≤ screenshotInterval D n * i := by positivity
      linarith
    · have hle : screenshotInterval D n * i ≤ ((n : ℚ) - 1) * screenshotInterval D n := by
        rw [mul_comm (screenshotInterval D n)]
        exact mul_le_mul_of_nonneg_right hile hint
      unfold screenshotStartTime
      rw [hsum] at hle
      linarith
  · unfold extractVideoScreenshotTimestamps
    rw [List.mem_map]
    refine ⟨0, by rw [List.mem_range]; omega, ?_⟩
    unfold screenshotStartTime
    push_cast
    ring
  · unfold extractVideoScreenshotTimestamps
    rw [List.mem_map]
    refine ⟨n - 1, by rw [List.mem_range]; omega, ?_⟩
    have hcast : (((n - 1 : ℕ)) : ℚ) = (n : ℚ) - 1 := by
      have : (1 : ℕ) ≤ n := by omega
      push_cast [this]
      ring
    rw [hcast]
    rw [mul_comm (screenshotInterval D n), hsum]
    unfold screenshotStartTime
    ring

/-- Witness for `screenshot_timestamps_spaced` at `D = 100`, `n = 4`:
the exact 1% point is among the produced timestamps, by applying the
theorem. -/
theorem screenshot_timestamps_spaced_witness :
    (100 : ℚ) * (1 / 100) ∈ extractVideoScreenshotTimestamps 100 4 := by
  exact (screenshot_timestamps_spaced 100 4 (by norm_num) (by norm_num)).2.2.2.1

/-! ## Streaming push events (`/api/process` + `processStreamingFile`, api.ts)

Event statuses written to the SSE stream for one streamed job.  The
handler writes an initial `processing` event; `processStreamingFile`
writes `processing` (progress 10), another `processing` (progress 20)
for videos, `description_complete`, `transcription_complete`, and then
the final summary through `sendSSE`; any throw inside the processing
block is caught and emits a single `failed` event, after which the
stream is closed.  `sendSSE` forwards a small summary as the one
`completed` event; a large summary (serialized length over 10000) is
written as a truncated `completed` event followed by one dedicated
content event per artifact longer than 1000 characters and a final
metadata-only `fully_completed` event.  `getMediaInfo` and
`generateScreenshots` catch their own errors and never throw, so the
fallible regions are description, transcription, optional report, and
the final result write; each is abstracted as an `Except`. -/

inductive EvStatus where
  | processing
  | descriptionComplete
  | transcriptionComplete
  | completed
  | failed
  | descriptionContent
  | transcriptionContent
  | reportContent
  | fullyCompleted
deriving DecidableEq

/-- Terminal statuses in the sense of the spec: `completed` / `failed`. -/
def isTerminal : EvStatus → Bool
  | .completed => true
  | .failed => true
  | _ => false

/-- Events that `sendSSE` may emit after the truncated `completed` event
when splitting a large summary. -/
def isSplitEvent : EvStatus → Bool
  | .descriptionContent => true
  | .transcriptionContent => true
  | .reportContent => true
  | .fullyCompleted => true
  | _ => false

/-- The events `sendSSE` writes for the final summary, given the
serialized summary length and the lengths of the three artifacts (a
missing report artifact has length 0). -/
def sendSSECompleted (serializedLen dLen tLen rLen : ℕ) : List EvStatus :=
  if 10000 < serializedLen then
    .completed ::
      ((if 1000 < dLen then [.descriptionContent] else [])
       ++ (if 1000 < tLen then [.transcriptionContent] else [])
       ++ (if 1000 < rLen then [.reportContent] else [])
       ++ [.fullyCompleted])
  else [.completed]

/-- The full status trace of one streamed job: initial handler event,
stage progress events, and either the summary events or a single
`failed` event from the catch block. -/
def streamTrace (isVideo : Bool)
    (descOutcome transOutcome : Except String String)
    (wantReport : Bool) (reportOutcome : Except String String)
    (finalWriteOutcome : Except String Unit)
    (serializedLen dLen tLen rLen : ℕ) : List EvStatus :=
  .processing :: .processing ::
    ((if isVideo then [.processing] else []) ++
      match descOutcome with
      | .error _ => [.failed]
      | .ok _ =>
        .descriptionComplete ::
          match transOutcome with
          | .error _ => [.failed]
          | .ok _ =>
            .transcriptionComplete ::
              match (if wantReport then reportOutcome.map (fun _ => ()) else .ok ()) with
              | .error _ => [.failed]
              | .ok _ =>
                match finalWriteOutcome with
                | .error _ => [.failed]
                | .ok _ => sendSSECompleted serializedLen dLen tLen rLen)

theorem sendSSECompleted_shape (serializedLen dLen tLen rLen : ℕ) :
    (sendSSECompleted serializedLen dLen tLen rLen).countP (fun x => isTerminal x) = 1 ∧
    ((sendSSECompleted serializedLen dLen tLen rLen).dropWhile
        (fun x => !(isTerminal x))).tail.all isSplitEvent = true ∧
    (EvStatus.failed ∈ sendSSECompleted serializedLen dLen tLen rLen →
      ((sendSSECompleted serializedLen dLen tLen rLen).dropWhile
        (fun x => !(isTerminal x))).tail = []) ∧
    (¬ 10000 < serializedLen →
      ((sendSSECompleted serializedLen dLen tLen rLen).dropWhile
        (fun x => !(isTerminal x))).tail = []) := by
  unfold sendSSECompleted
  split
  · rename_i hbig
    refine ?_
    split <;> split <;> split <;>
      exact ⟨by decide, by decide, by decide, fun hsmall => absurd hbig hsmall⟩
  · exact ⟨by decide, by decide, fun _ => by decide, fun _ => by decide⟩

theorem terminalTraceProps_cons (e : EvStatus) (l : List EvStatus)
    (he : isTerminal e = false) (hne : e ≠ .failed)
    {smallTail : Prop}
    (h : l.countP (fun x => isTerminal x) = 1 ∧
      (l.dropWhile (fun x => !(isTerminal x))).tail.all isSplitEvent = true ∧
      (EvStatus.failed ∈ l → (l.dropWhile (fun x => !(isTerminal x))).tail = []) ∧
      (smallTail → (l.dropWhile (fun x => !(isTerminal x))).tail = [])) :
    (e :: l).countP (fun x => isTerminal x) = 1 ∧
    ((e :: l).dropWhile (fun x => !(isTerminal x))).tail.all isSplitEvent = true ∧
    (EvStatus.failed ∈ (e :: l) →
      ((e :: l).dropWhile (fun x => !(isTerminal x))).tail = []) ∧
    (smallTail → ((e :: l).dropWhile (fun x => !(isTerminal x))).tail = []) := by
  obtain ⟨h1, h2, h3, h4⟩ := h
  have hd : (e :: l).dropWhile (fun x => !(isTerminal x))
      = l.dropWhile (fun x => !(isTerminal x)) := by
    simp [List.dropWhile, he]
  refine ⟨?_, ?_, ?_, ?_⟩
  · rw [List.countP_cons]
    simp [he, h1]
  · rw [hd]
    exact h2
  · intro hm
    rw [hd]
    apply h3
    rcases List.mem_cons.mp hm with hh | hh
    · exact absurd hh.symm hne
    · exact hh
  · intro hsm
    rw [hd]
    exact h4 hsm

/-- C9.  For every streamed job — any media kind, any combination of
stage outcomes, any artifact sizes — the event trace contains exactly one
terminal event (`completed` or `failed`); every event after the terminal
event belongs to the large-artifact split (dedicated content events plus
the metadata-only `fully_completed` event); when the terminal event is
`failed` it is the last event of the stream; and when the summary is not
large the terminal event is the last event of the stream. -/
theorem stream_single_terminal_event (isVideo : Bool)
    (descOutcome transOutcome : Except String String)
    (wantReport : Bool) (reportOutcome : Except String String)
    (finalWriteOutcome : Except String Unit)
    (serializedLen dLen tLen rLen : ℕ) :
    (streamTrace isVideo descOutcome transOutcome wantReport reportOutcome
        finalWriteOutcome serializedLen dLen tLen rLen).countP
      (fun x => isTerminal x) = 1 ∧
    ((streamTrace isVideo descOutcome transOutcome wantReport reportOutcome
        finalWriteOutcome serializedLen dLen tLen rLen).dropWhile
      (fun x => !(isTerminal x))).tail.all isSplitEvent = true ∧
    (EvStatus.failed ∈ streamTrace isVideo descOutcome transOutcome wantReport
        reportOutcome finalWriteOutcome serializedLen dLen tLen rLen →
      ((streamTrace isVideo descOutcome transOutcome wantReport reportOutcome
          finalWriteOutcome serializedLen dLen tLen rLen).dropWhile
        (fun x => !(isTerminal x))).tail = []) ∧
    (¬ 10000 < serializedLen →
      ((streamTrace isVideo descOutcome transOutcome wantReport reportOutcome
          finalWriteOutcome serializedLen dLen tLen rLen).dropWhile
        (fun x => !(isTerminal x))).tail = []) := by
  have base : (sendSSECompleted serializedLen dLen tLen rLen).countP
        (fun x => isTerminal x) = 1 ∧
      ((sendSSECompleted serializedLen dLen tLen rLen).dropWhile
        (fun x => !(isTerminal x))).tail.all isSplitEvent = true ∧
      (EvStatus.failed ∈ sendSSECompleted serializedLen dLen tLen rLen →
        ((sendSSECompleted serializedLen dLen tLen rLen).dropWhile
          (fun x => !(isTerminal x))).tail = []) ∧
      (¬ 10000 < serializedLen →
        ((sendSSECompleted serializedLen dLen tLen rLen).dropWhile
          (fun x => !(isTerminal x))).tail = []) :=
    sendSSECompleted_shape serializedLen dLen tLen rLen
  unfold streamTrace
  cases isVideo <;>
    cases descOutcome <;>
      cases transOutcome <;>
        cases wantReport <;>
          cases reportOutcome <;>
            cases finalWriteOutcome <;>
              simp only [Except.map, List.nil_append, List.cons_append,
                List.singleton_append, Bool.false_eq_true, Bool.true_eq_false,
                if_true, if_false, ite_true, ite_false] <;>
                first
                  | exact ⟨by decide, by decide, fun _ => by decide, fun _ => by decide⟩
                  | exact terminalTraceProps_cons _ _ (by rfl) (by decide)
                      (terminalTraceProps_cons _ _ (by rfl) (by decide)
                        (terminalTraceProps_cons _ _ (by rfl) (by decide)
                          (terminalTraceProps_cons _ _ (by rfl) (by decide) base)))
                  | exact terminalTraceProps_cons _ _ (by rfl) (by decide)
                      (terminalTraceProps_cons _ _ (by rfl) (by decide)
                        (terminalTraceProps_cons _ _ (by rfl) (by decide)
                          (terminalTraceProps_cons _ _ (by rfl) (by decide)
                            (terminalTraceProps_cons _ _ (by rfl) (by decide) base))))

/-! ## Generation adapter (`generateWithGemini`, utils/gemini.ts)

The retry loop: for `attempt = 0 .. maxRetries-1`, one
`processGenerationAttempt` is awaited inside `try`; a successful attempt
returns immediately with its text (and no `error` field); a throw is
recorded as `lastError` and, before the next attempt, a fixed delay is
awaited (timing is outside this embedding).  When the loop exhausts, the
function returns — it never throws — with empty text and an error string
built from the last error: `Gemini API Error: ...` for an API error, or
`Unexpected error after N attempts: ...` otherwise (`Unknown error` when
no message is available).  Each attempt's outcome is abstracted as a
function from the attempt index. -/

inductive GemErr where
  | api (msg : String)
  | other (msg : String)
deriving DecidableEq

/-- The error string returned after exhausting all retries. -/
def geminiFailureText (maxRetries : ℕ) : Option GemErr → String
  | some (.api m) => "Gemini API Error: " ++ m
  | some (.other m) =>
    "Unexpected error after " ++ toString maxRetries ++ " attempts: "
      ++ (if m = "" then "Unknown error" else m)
  | none => "Unexpected error after " ++ toString maxRetries ++ " attempts: Unknown error"

/-- The retry loop, structurally on the number of remaining attempts
(`remaining = maxRetries - attempt`). -/
def generateWithGeminiGo (attempts : ℕ → Except GemErr String) (maxRetries : ℕ) :
    ℕ → ℕ → Option GemErr → GeminiResponse
  | 0, _, lastError => { text := "", error := some (geminiFailureText maxRetries lastError) }
  | remaining + 1, attempt, _ =>
    match attempts attempt with
    | .ok t => { text := t, error := none }
    | .error e => generateWithGeminiGo attempts maxRetries remaining (attempt + 1) (some e)

/-- `generateWithGemini`, abstracted over the per-attempt outcomes.  It is
a total function: every input yields a `GeminiResponse`. -/
def generateWithGemini (maxRetries : ℕ) (attempts : ℕ → Except GemErr String) :
    GeminiResponse :=
  generateWithGeminiGo attempts maxRetries maxRetries 0 none

theorem geminiFailureText_ne_empty (maxRetries : ℕ) (le : Option GemErr) :
    geminiFailureText maxRetries le ≠ "" := by
  have hlen : 0 < (geminiFailureText maxRetries le).length := by
    match le with
    | some (.api m) =>
      show 0 < ("Gemini API Error: " ++ m).length
      rw [String.length_append]
      have : ("Gemini API Error: ").length = 18 := rfl
      omega
    | some (.other m) =>
      show 0 < ("Unexpected error after " ++ toString maxRetries ++ " attempts: "
        ++ (if m = "" then "Unknown error" else m)).length
      rw [String.length_append, String.length_append, String.length_append]
      have : ("Unexpected error after ").length = 23 := rfl
      omega
    | none =>
      show 0 < ("Unexpected error after " ++ toString maxRetries
        ++ " attempts: Unknown error").length
      rw [String.length_append, String.length_append]
      have : ("Unexpected error after ").length = 23 := rfl
      omega
  intro h
  rw [h] at hlen
  exact absurd hlen (by decide)

theorem generateWithGeminiGo_spec (attempts : ℕ → Except GemErr String)
    (maxRetries : ℕ) :
    ∀ (remaining attempt : ℕ) (lastError : Option GemErr),
    (∃ k, k < remaining ∧
      (∀ j, j < k → ∃ e, attempts (attempt + j) = .error e) ∧
      (∃ t, attempts (attempt + k) = .ok t ∧
        generateWithGeminiGo attempts maxRetries remaining attempt lastError
          = { text := t, error := none })) ∨
    ((∀ k, k < remaining → ∃ e, attempts (attempt + k) = .error e) ∧
      (∃ le, generateWithGeminiGo attempts maxRetries remaining attempt lastError
        = { text := "", error := some (geminiFailureText maxRetries le) })) := by
  intro remaining
  induction remaining with
  | zero =>
    intro attempt lastError
    right
    exact ⟨fun k hk => absurd hk (by omega), lastError, rfl⟩
  | succ r ih =>
    intro attempt lastError
    cases hoc : attempts attempt with
    | ok t =>
      left
      refine ⟨0, by omega, fun j hj => absurd hj (by omega), t, by simpa using hoc, ?_⟩
      show (match attempts attempt with
        | .ok t => ({ text := t, error := none } : GeminiResponse)
        | .error e => generateWithGeminiGo attempts maxRetries r (attempt + 1) (some e)) = _
      rw [hoc]
    | error e =>
      have hstep : generateWithGeminiGo attempts maxRetries (r + 1) attempt lastError
          = generateWithGeminiGo attempts maxRetries r (attempt + 1) (some e) := by
        show (match attempts attempt with
          | .ok t => ({ text := t, error := none } : GeminiResponse)
          | .error e => generateWithGeminiGo attempts maxRetries r (attempt + 1) (some e)) = _
        rw [hoc]
      rcases ih (attempt + 1) (some e) with ⟨k, hk, herrs, t, hok, heq⟩ | ⟨herrs, le, heq⟩
      · left
        refine ⟨k + 1, by omega, ?_, t, ?_, by rw [hstep]; exact heq⟩
        · intro j hj
          cases j with
          | zero => exact ⟨e, by simpa using hoc⟩
          | succ j' =>
            obtain ⟨e', he'⟩ := herrs j' (by omega)
            exact ⟨e', by rw [show attempt + (j' + 1) = attempt + 1 + j' by omega]; exact he'⟩
        · rw [show attempt + (k + 1) = attempt + 1 + k by omega]
          exact hok
      · right
        refine ⟨?_, le, by rw [hstep]; exact heq⟩
        intro k hk
        cases k with
        | zero => exact ⟨e, by simpa using hoc⟩
        | succ k' =>
          obtain ⟨e', he'⟩ := herrs k' (by omega)
          exact ⟨e', by rw [show attempt + (k' + 1) = attempt + 1 + k' by omega]; exact he'⟩

/-- C10.  `generateWithGemini` is total (it is a function into
`GeminiResponse`: every input resolves), and for every retry budget and
every assignment of per-attempt outcomes, either some attempt within the
budget succeeds — all earlier attempts having failed — and the result
carries its generated text with no error field, or every attempt within
the budget fails and the result carries empty text and a non-empty error
message. -/
theorem generateWithGemini_total_spec (maxRetries : ℕ)
    (attempts : ℕ → Except GemErr String) :
    (∃ k, k < maxRetries ∧
      (∀ j, j < k → ∃ e, attempts j = .error e) ∧
      (∃ t, attempts k = .ok t ∧
        generateWithGemini maxRetries attempts = { text := t, error := none })) ∨
    ((∀ k, k < maxRetries → ∃ e, attempts k = .error e) ∧
      (generateWithGemini maxRetries attempts).text = "" ∧
      (∃ msg, (generateWithGemini maxRetries attempts).error = some msg ∧ msg ≠ "")) := by
  rcases generateWithGeminiGo_spec attempts maxRetries maxRetries 0 none with
    ⟨k, hk, herrs, t, hok, heq⟩ | ⟨herrs, le, heq⟩
  · left
    refine ⟨k, hk, ?_, t, ?_, heq⟩
    · intro j hj
      simpa using herrs j hj
    · simpa using hok
  · right
    refine ⟨?_, ?_, ?_⟩
    · intro k hk
      simpa using herrs k hk
    · show (generateWithGemini maxRetries attempts).text = ""
      unfold generateWithGemini
      rw [heq]
    · refine ⟨geminiFailureText maxRetries le, ?_, geminiFailureText_ne_empty maxRetries le⟩
      unfold generateWithGemini
      rw [heq]

/-- Witness for `stream_single_terminal_event`: a streamed audio job whose
description stage throws emits the trace
`[processing, processing, failed]`, and applying the theorem shows no
event follows the `failed` terminal. -/
theorem stream_single_terminal_event_witness :
    ((streamTrace false (.error "ffmpeg failure") (.ok "t") false (.ok "r")
        (.ok ()) 0 0 0 0).dropWhile (fun x => !(isTerminal x))).tail = [] ∧
    ((streamTrace true (.ok "d") (.ok "t") true (.ok "r")
        (.ok ()) 500 0 0 0).dropWhile (fun x => !(isTerminal x))).tail = [] := by
  refine ⟨?_, ?_⟩
  · exact (stream_single_terminal_event false (.error "ffmpeg failure") (.ok "t")
      false (.ok "r") (.ok ()) 0 0 0 0).2.2.1 (by decide)
  · exact (stream_single_terminal_event true (.ok "d") (.ok "t")
      true (.ok "r") (.ok ()) 500 0 0 0).2.2.2 (by omega)

/-- Per-attempt outcomes used to witness `generateWithGemini_total_spec`:
every attempt throws an API error. -/
def demoAttempts : ℕ → Except GemErr String :=
  fun _ => .error (.api "quota exceeded")

/-- Witness for `generateWithGemini_total_spec`: with one retry and
always-failing attempts, applying the theorem yields the failure result —
empty text and a non-empty error message. -/
theorem generateWithGemini_total_spec_witness :
    (generateWithGemini 1 demoAttempts).text = "" ∧
    (∃ msg, (generateWithGemini 1 demoAttempts).error = some msg ∧ msg ≠ "") := by
  rcases generateWithGemini_total_spec 1 demoAttempts with
    ⟨k, hk, herrs, t, hok, heq⟩ | ⟨herrs, h1, h2⟩
  · exact absurd hok (by simp [demoAttempts])
  · exact ⟨h1, h2⟩
